import Mathlib

/-!
Verification of the finite-frame finder programs (group finder and partial
preorder / frame finder) against their natural-language specification.

The development shallowly embeds:
* the `BitOps` bitmask utilities (`src/unnamed/part_000`, duplicated in
  `example_groups.cpp`) as functions on `Nat`;
* the group axiom encoder `GroupFinder::add_group_axioms` and the model
  verifier `GroupFinder::verify_group` (`src/src/example_groups.cpp`) as
  predicates / boolean checks over a concrete table `t : Nat → Nat → Nat`
  (a model extracted from the solver) together with an identity value;
* the preorder constraint emission (`PartialPreorderFinder::add_preorder_axioms`
  etc., and the `AxiomEncoder` methods of the `FrameFinder` revision) as
  syntactic lists of emitted propositions (`PProp`) with a boolean
  satisfaction semantics over a concrete matrix `M : Nat → Nat → Bool`.

C++ `int` values appearing as table entries, indices and bitmasks are modelled
by `Nat`: every value the programs manipulate in the verified fragments is
constrained (or assumed by the claims) to be non-negative, and the bitwise
operations used (`&`, `|`, `^`, `<<`, `>>`) agree with the `Nat` versions on
non-negative values, so the C++ `>= 0` halves of range constraints hold by
typing and the `< n` halves are kept explicitly.
-/

namespace BitOps

/-- `BitOps::contains`: check whether element `k` is in the bitmask. -/
def contains (mask k : Nat) : Bool :=
  mask &&& (1 <<< k) != 0

/-- `BitOps::set_union`: bitwise OR. -/
def set_union (mask1 mask2 : Nat) : Nat :=
  mask1 ||| mask2

/-- `BitOps::set_intersection`: bitwise AND. -/
def set_intersection (mask1 mask2 : Nat) : Nat :=
  mask1 &&& mask2

/-- `BitOps::set_complement`: complement with respect to a universe of size
`n`, computed as `((1 << n) - 1) ^ mask`. -/
def set_complement (mask n : Nat) : Nat :=
  ((1 <<< n) - 1) ^^^ mask

/-- `BitOps::is_subset`: `(mask1 & mask2) == mask1`. -/
def is_subset (mask1 mask2 : Nat) : Bool :=
  mask1 &&& mask2 == mask1

/-- `BitOps::cardinality`: the popcount loop
`while (mask) { count += mask & 1; mask >>= 1; }`, written as the equivalent
recursion on `mask`. -/
def cardinality (mask : Nat) : Nat :=
  if h : mask = 0 then 0
  else (mask &&& 1) + cardinality (mask >>> 1)
decreasing_by
  simp only [Nat.shiftRight_eq_div_pow, Nat.pow_one]
  exact Nat.div_lt_self (Nat.pos_of_ne_zero h) one_lt_two

end BitOps

namespace GroupFinder

/-!
Embedding of `GroupFinder` (`src/src/example_groups.cpp`).  A concrete
assignment to the symbolic table `mul_table[i][j]` is a function
`t : Nat → Nat → Nat` (only arguments `< n` matter) and a concrete value of
the `identity` variable.  Each proposition set that `add_group_axioms` hands
to the solver is embedded as the predicate "this concrete assignment
satisfies every proposition of the set".
-/

/-- Domain constraint of `add_group_axioms`
(`mul_table[i][j] >= 0 && mul_table[i][j] < n` for all `i, j < n`); the
`>= 0` half holds by the `Nat` typing. -/
def domain_holds (n : Nat) (t : Nat → Nat → Nat) : Prop :=
  ∀ i < n, ∀ j < n, t i j < n

/-- AXIOM 1 of `add_group_axioms` for one element `a`: the two conjunctions
`left_id` and `right_id` of implications
`implies(identity == e, mul_table[e][a] == a)` resp.
`implies(identity == e, mul_table[a][e] == a)` over all candidates `e < n`,
evaluated at a concrete table `t` and identity value `idv`. -/
def identity_encoding (n : Nat) (t : Nat → Nat → Nat) (idv a : Nat) : Prop :=
  (∀ e < n, idv = e → t e a = a) ∧ (∀ e < n, idv = e → t a e = a)

/-- AXIOM 2 of `add_group_axioms`: for every ordered triple `(a,b,c)` and
candidate intermediate results `(ab, bc)`, the implication
`implies(mul_table[a][b] == ab && mul_table[b][c] == bc,
         mul_table[ab][c] == mul_table[a][bc])`,
evaluated at a concrete table `t`. -/
def assoc_encoding (n : Nat) (t : Nat → Nat → Nat) : Prop :=
  ∀ a < n, ∀ b < n, ∀ c < n, ∀ ab < n, ∀ bc < n,
    t a b = ab ∧ t b c = bc → t ab c = t a bc

/-- AXIOM 3 of `add_group_axioms`, right inverse: for every `a`, the
disjunction `mk_or` over `b < n` of `mul_table[a][b] == identity`. -/
def right_inv_encoding (n : Nat) (t : Nat → Nat → Nat) (idv : Nat) : Prop :=
  ∀ a < n, ∃ b < n, t a b = idv

/-- AXIOM 3 of `add_group_axioms`, left inverse: for every `a`, the
disjunction `mk_or` over `b < n` of `mul_table[b][a] == identity`. -/
def left_inv_encoding (n : Nat) (t : Nat → Nat → Nat) (idv : Nat) : Prop :=
  ∀ a < n, ∃ b < n, t b a = idv

/-- Identity re-check of `verify_group`: the loop that fails iff
`table[e][a] != a || table[a][e] != a` for some `a < n`. -/
def identity_ok (n : Nat) (t : Nat → Nat → Nat) (e : Nat) : Bool :=
  (List.range n).all fun a => decide (t e a = a) && decide (t a e = a)

/-- Associativity re-check of `verify_group`: the triple loop comparing
`table[table[a][b]][c]` with `table[a][table[b][c]]` directly. -/
def assoc_ok (n : Nat) (t : Nat → Nat → Nat) : Bool :=
  (List.range n).all fun a => (List.range n).all fun b =>
    (List.range n).all fun c => decide (t (t a b) c = t a (t b c))

/-- Inverse re-check of `verify_group`: for every `a < n` some single `b < n`
with `table[a][b] == e && table[b][a] == e`. -/
def inv_ok (n : Nat) (t : Nat → Nat → Nat) (e : Nat) : Bool :=
  (List.range n).all fun a => (List.range n).any fun b =>
    decide (t a b = e) && decide (t b a = e)

/-- Bounds-checked access to the extracted `n × n` table
(`std::vector` indexing is well-defined only in bounds; out-of-bounds access
is modelled as `none`). -/
def getEntry (n : Nat) (t : Nat → Nat → Nat) (i j : Nat) : Option Nat :=
  if i < n ∧ j < n then some (t i j) else none

/-- The sequence of table accesses `verify_group` performs for one triple
`(a,b,c)` of the associativity check:
`table[a][b]`, `table[b][c]`, then the nested lookups
`table[table[a][b]][c]` and `table[a][table[b][c]]`. -/
def assocAccess (n : Nat) (t : Nat → Nat → Nat) (a b c : Nat) : Option Bool := do
  let ab ← getEntry n t a b
  let bc ← getEntry n t b c
  let l ← getEntry n t ab c
  let r ← getEntry n t a bc
  pure (l == r)

/-- The pair of table accesses `verify_group` performs for one element `a`
of the identity check: `table[e][a]` and `table[a][e]`. -/
def identityAccess (n : Nat) (t : Nat → Nat → Nat) (e a : Nat) : Option Bool := do
  let l ← getEntry n t e a
  let r ← getEntry n t a e
  pure (l == a && r == a)

end GroupFinder

/-- Syntax of the propositions the preorder-family encoders hand to the
solver: atoms `R[i][j]`, transitivity implications
`implies(R[i][j] && R[j][k], R[i][k])`, negated atoms `!R[i][j]`, and the
big disjunction of strict pairs `R[i][j] && !R[j][i]`. -/
inductive PProp where
  | atom (i j : Nat)
  | transImp (i j k : Nat)
  | natom (i j : Nat)
  | strictDisj (pairs : List (Nat × Nat))
deriving DecidableEq

/-- Truth value of one emitted proposition at a concrete boolean matrix `M`
(the model the solver would return). -/
def PProp.holds (M : Nat → Nat → Bool) : PProp → Bool
  | .atom i j => M i j
  | .transImp i j k => !(M i j && M j k) || M i k
  | .natom i j => !(M i j)
  | .strictDisj pairs => pairs.any fun p => M p.1 p.2 && !(M p.2 p.1)

/-- A concrete matrix satisfies every proposition of an emitted set. -/
def satisfiesAll (l : List PProp) (M : Nat → Nat → Bool) : Bool :=
  l.all (PProp.holds M)

namespace PreorderFinder

/-!
Embedding of `PartialPreorderFinder` (`src/src/example_groups.cpp`, third
translation unit), the first revision of the preorder family.  Each encoder
method is embedded as the list of propositions it adds to the solver;
`ps` stands for `powerset_size = 1 << universe_size`.
-/

/-- `PartialPreorderFinder::add_preorder_axioms`: the reflexivity loop
(`s.add(R[i][i])` for every `i`) followed by the transitivity triple loop
(`s.add(implies(R[i][j] && R[j][k], R[i][k]))`). -/
def add_preorder_asserts (ps : Nat) : List PProp :=
  ((List.range ps).map fun i => .atom i i) ++
    ((List.range ps).flatMap fun i => (List.range ps).flatMap fun j =>
      (List.range ps).map fun k => .transImp i j k)

/-- `PartialPreorderFinder::add_monotonicity`: `s.add(R[i][j])` for every
pair with `BitOps::is_subset(i, j)`. -/
def add_monotonicity (ps : Nat) : List PProp :=
  (List.range ps).flatMap fun i => (List.range ps).filterMap fun j =>
    if BitOps.is_subset i j then some (.atom i j) else none

/-- `PartialPreorderFinder::require_nontrivial`: one `mk_or` of
`R[i][j] && !R[j][i]` over all pairs with `i != j`. -/
def require_nontrivial (ps : Nat) : List PProp :=
  [.strictDisj ((List.range ps).flatMap fun i =>
    (List.range ps).filterMap fun j => if i ≠ j then some (i, j) else none)]

end PreorderFinder

namespace FrameFinder

/-!
Embedding of the `FrameFinder` revision (`src/unnamed/part_000`): the
`AxiomEncoder` methods as emitted proposition lists and the private
verification loops of `FrameFinder` as boolean checks on the extracted
matrix.  `ps` stands for `vars.size() = 1 << universe_size`.
-/

/-- `AxiomEncoder::encode_transitivity`: the triple loop emitting
`implies(R[i][j] && R[j][k], R[i][k])`. -/
def encode_transitivity (ps : Nat) : List PProp :=
  (List.range ps).flatMap fun i => (List.range ps).flatMap fun j =>
    (List.range ps).map fun k => .transImp i j k

/-- `AxiomEncoder::encode_monotonicity`: `s.add(R[i][j])` for every pair
with `BitOps::is_subset(i, j)`. -/
def encode_monotonicity (ps : Nat) : List PProp :=
  (List.range ps).flatMap fun i => (List.range ps).filterMap fun j =>
    if BitOps.is_subset i j then some (.atom i j) else none

/-- `AxiomEncoder::encode_non_triviality`: the single assertion
`!R[full_set][empty_set]` with `full_set = ps - 1` and `empty_set = 0`. -/
def encode_non_triviality (ps : Nat) : List PProp :=
  [.natom (ps - 1) 0]

/-- The proposition set the `FrameFinder` revision's `main` emits: its three
`AxiomEncoder` calls in order. -/
def frame_constraints (ps : Nat) : List PProp :=
  encode_transitivity ps ++ encode_monotonicity ps ++ encode_non_triviality ps

/-- Reflexivity loop of `FrameFinder::verify_preorder`: `reflexive_ok`
becomes false iff `!matrix[i][i]` for some `i < ps`; the code then runs
`assert(reflexive_ok && ...)`. -/
def reflexive_ok (ps : Nat) (M : Nat → Nat → Bool) : Bool :=
  (List.range ps).all fun i => M i i

/-- Transitivity loop of `FrameFinder::verify_preorder`: fails iff
`matrix[i][j] && matrix[j][k] && !matrix[i][k]` for some triple. -/
def transitive_ok (ps : Nat) (M : Nat → Nat → Bool) : Bool :=
  (List.range ps).all fun i => (List.range ps).all fun j =>
    (List.range ps).all fun k => !(M i j && M j k && !(M i k))

/-- `FrameFinder::verify_monotonicity`: fails iff
`BitOps::is_subset(i, j) && !matrix[i][j]` for some pair `i, j < ps`. -/
def monotonicity_ok (ps : Nat) (M : Nat → Nat → Bool) : Bool :=
  (List.range ps).all fun i => (List.range ps).all fun j =>
    !(BitOps.is_subset i j && !(M i j))

/-- `FrameFinder::verify_non_triviality`: `!matrix[full_set][empty_set]`. -/
def non_triviality_ok (ps : Nat) (M : Nat → Nat → Bool) : Bool :=
  !(M (ps - 1) 0)

end FrameFinder

/-! ## Helper lemmas -/

theorem is_subset_self (i : Nat) : BitOps.is_subset i i = true := by
  simp [BitOps.is_subset, Nat.and_self]

theorem mem_encode_monotonicity (ps i j : Nat) (hi : i < ps) (hj : j < ps)
    (hsub : BitOps.is_subset i j = true) :
    PProp.atom i j ∈ FrameFinder.encode_monotonicity ps := by
  unfold FrameFinder.encode_monotonicity
  rw [List.mem_flatMap]
  refine ⟨i, List.mem_range.mpr hi, ?_⟩
  rw [List.mem_filterMap]
  exact ⟨j, List.mem_range.mpr hj, by rw [hsub]; simp⟩

theorem mono_model_subset (ps : Nat) (M : Nat → Nat → Bool)
    (h : satisfiesAll (FrameFinder.encode_monotonicity ps) M = true) :
    ∀ i < ps, ∀ j < ps, BitOps.is_subset i j = true → M i j = true := by
  intro i hi j hj hsub
  have hmem := mem_encode_monotonicity ps i j hi hj hsub
  have := List.all_eq_true.mp h _ hmem
  simpa [PProp.holds] using this

/-! ## Claim theorems -/

/-- C9: complement with respect to a fixed universe is an involution:
`set_complement(set_complement(mask, n), n) == mask` for every mask and
universe size (on `Nat` there is no overflow, so this covers every `n` for
which the C++ `1 << n` is defined). -/
theorem set_complement_involutive (mask n : Nat) :
    BitOps.set_complement (BitOps.set_complement mask n) n = mask := by
  unfold BitOps.set_complement
  rw [← Nat.xor_assoc, Nat.xor_self, Nat.zero_xor]

/-- C10: the popcount loop applied to the full-universe mask `(1 << n) - 1`
returns exactly the universe size `n`. -/
theorem cardinality_full_mask (n : Nat) :
    BitOps.cardinality ((1 <<< n) - 1) = n := by
  induction n with
  | zero => simp [BitOps.cardinality]
  | succ m ih =>
    rw [BitOps.cardinality]
    have hpos : (1 <<< (m + 1)) - 1 ≠ 0 := by
      have : (2:Nat) ^ (m + 1) ≥ 2 := by
        calc (2:Nat) ^ (m+1) ≥ 2 ^ 1 := Nat.pow_le_pow_right (by omega) (by omega)
        _ = 2 := by norm_num
      simp only [Nat.shiftLeft_eq, Nat.one_mul]
      omega
    rw [dif_neg hpos]
    have h2 : (1 <<< (m + 1)) - 1 = 2 * ((1 <<< m) - 1) + 1 := by
      simp only [Nat.shiftLeft_eq, Nat.one_mul, Nat.pow_succ]
      have : (2:Nat) ^ m ≥ 1 := Nat.one_le_two_pow
      omega
    rw [h2]
    have hand : (2 * ((1 <<< m) - 1) + 1) &&& 1 = 1 := by
      rw [Nat.and_one_is_mod]
      omega
    have hshift : (2 * ((1 <<< m) - 1) + 1) >>> 1 = (1 <<< m) - 1 := by
      rw [Nat.shiftRight_eq_div_pow, Nat.pow_one]
      omega
    rw [hand, hshift, ih]
    omega

/-- C1: on in-range tables, the encoder's case-split associativity
proposition set (over all `a, b, c, ab, bc < n`) holds iff the verifier's
direct re-check `table[table[a][b]][c] == table[a][table[b][c]]` passes for
every ordered triple: the two decide the same property. -/
theorem assoc_encoding_iff_direct_recheck (n : Nat) (t : Nat → Nat → Nat)
    (hn : 1 ≤ n) (hdom : GroupFinder.domain_holds n t) :
    GroupFinder.assoc_encoding n t ↔ GroupFinder.assoc_ok n t = true := by
  unfold GroupFinder.assoc_encoding GroupFinder.assoc_ok
  simp only [List.all_eq_true, List.mem_range, Bool.and_eq_true,
    decide_eq_true_eq]
  constructor
  · intro h a ha b hb c hc
    exact h a ha b hb c hc (t a b) (hdom a ha b hb) (t b c) (hdom b hb c hc)
      ⟨rfl, rfl⟩
  · intro h a ha b hb c hc ab hab bc hbc hcond
    obtain ⟨h1, h2⟩ := hcond
    rw [← h1, ← h2]
    exact h a ha b hb c hc

/-- Witness for C1 at `n = 1` and the constant-zero table. -/
theorem assoc_encoding_iff_direct_recheck_witness :
    GroupFinder.assoc_encoding 1 (fun _ _ => 0) ↔
      GroupFinder.assoc_ok 1 (fun _ _ => 0) = true :=
  assoc_encoding_iff_direct_recheck 1 (fun _ _ => 0) (by decide)
    (by intro i hi j hj; exact Nat.one_pos)

/-- C3: when the identity variable's value `idv` lies in `[0, n)`, the
conjunction of implications emitted for element `a` holds iff the two direct
equalities at the actual identity value hold; every implication whose
candidate differs from `idv` is vacuously true. -/
theorem identity_encoding_iff_direct (n : Nat) (t : Nat → Nat → Nat)
    (idv a : Nat) (hid : idv < n) (ha : a < n) :
    (GroupFinder.identity_encoding n t idv a ↔ (t idv a = a ∧ t a idv = a)) ∧
    (∀ e < n, e ≠ idv → (idv = e → t e a = a) ∧ (idv = e → t a e = a)) := by
  constructor
  · constructor
    · intro h
      exact ⟨h.1 idv hid rfl, h.2 idv hid rfl⟩
    · intro h
      constructor
      · intro e _ heq
        rw [← heq]
        exact h.1
      · intro e _ heq
        rw [← heq]
        exact h.2
  · intro e _ hne
    exact ⟨fun heq => absurd heq.symm hne, fun heq => absurd heq.symm hne⟩

/-- Witness for C3 at `n = 1`, the constant-zero table, `idv = 0`, `a = 0`. -/
theorem identity_encoding_iff_direct_witness :
    (GroupFinder.identity_encoding 1 (fun _ _ => 0) 0 0 ↔
      ((fun (_ _ : Nat) => 0) 0 0 = 0 ∧ (fun (_ _ : Nat) => 0) 0 0 = 0)) ∧
    (∀ e < 1, e ≠ 0 →
      (0 = e → (fun (_ _ : Nat) => 0) e 0 = 0) ∧
      (0 = e → (fun (_ _ : Nat) => 0) 0 e = 0)) :=
  identity_encoding_iff_direct 1 (fun _ _ => 0) 0 0 (by decide) (by decide)

/-- C2: any in-range table satisfying the asserted axioms — identity value in
`[0, n)`, two-sided identity, full associativity, and the two separate
one-sided inverse existentials — in fact gives every element one single `b`
with both `table[a][b] == e` and `table[b][a] == e`, so the verifier's joint
two-sided-inverse check passes. -/
theorem one_sided_inverses_give_joint_check (n : Nat) (t : Nat → Nat → Nat)
    (e : Nat) (hn : 1 ≤ n) (hdom : GroupFinder.domain_holds n t) (he : e < n)
    (hid : ∀ a < n, t e a = a ∧ t a e = a)
    (hassoc : ∀ a < n, ∀ b < n, ∀ c < n, t (t a b) c = t a (t b c))
    (hrinv : GroupFinder.right_inv_encoding n t e)
    (hlinv : GroupFinder.left_inv_encoding n t e) :
    (∀ a < n, ∃ b < n, t a b = e ∧ t b a = e) ∧
      GroupFinder.inv_ok n t e = true := by
  have key : ∀ a < n, ∃ b < n, t a b = e ∧ t b a = e := by
    intro a ha
    obtain ⟨b, hb, hab⟩ := hrinv a ha
    obtain ⟨b', hb', hba⟩ := hlinv a ha
    have hbb : b' = b := by
      have h1 : t (t b' a) b = t b' (t a b) := hassoc b' hb' a ha b hb
      rw [hab, hba, (hid b' hb').2, (hid b hb).1] at h1
      exact h1.symm
    exact ⟨b, hb, hab, by rw [← hbb]; exact hba⟩
  refine ⟨key, ?_⟩
  unfold GroupFinder.inv_ok
  simp only [List.all_eq_true, List.any_eq_true, List.mem_range,
    Bool.and_eq_true, decide_eq_true_eq]
  intro a ha
  obtain ⟨b, hb, h1, h2⟩ := key a ha
  exact ⟨b, hb, h1, h2⟩

/-- Witness for C2 at `n = 1`, the constant-zero table, `e = 0`. -/
theorem one_sided_inverses_give_joint_check_witness :
    (∀ a < 1, ∃ b < 1, (fun (_ _ : Nat) => 0) a b = 0 ∧
      (fun (_ _ : Nat) => 0) b a = 0) ∧
      GroupFinder.inv_ok 1 (fun _ _ => 0) 0 = true :=
  one_sided_inverses_give_joint_check 1 (fun _ _ => 0) 0 (by decide)
    (by intro i hi j hj; exact Nat.one_pos) (by decide) (by decide)
    (by decide) (fun a _ => ⟨0, Nat.one_pos, rfl⟩)
    (fun a _ => ⟨0, Nat.one_pos, rfl⟩)

/-- C8: under the closure constraints asserted by the encoder (all table
entries and the identity value in `[0, n)`), every table access performed by
`verify_group` — the nested associativity lookups and the identity row/column
accesses — is within bounds (no bounds-checked access returns `none`). -/
theorem verify_group_accesses_in_bounds (n : Nat) (t : Nat → Nat → Nat)
    (e : Nat) (hdom : GroupFinder.domain_holds n t) (he : e < n) :
    ∀ a < n, ∀ b < n, ∀ c < n,
      (GroupFinder.assocAccess n t a b c).isSome ∧
      (GroupFinder.identityAccess n t e a).isSome := by
  intro a ha b hb c hc
  have hab := hdom a ha b hb
  have hbc := hdom b hb c hc
  constructor
  · simp [GroupFinder.assocAccess, GroupFinder.getEntry, ha, hb, hc, hab, hbc]
  · simp [GroupFinder.identityAccess, GroupFinder.getEntry, ha, he]

/-- Witness for C8 at `n = 1`, the constant-zero table, `e = 0`. -/
theorem verify_group_accesses_in_bounds_witness :
    (GroupFinder.assocAccess 1 (fun _ _ => 0) 0 0 0).isSome ∧
      (GroupFinder.identityAccess 1 (fun _ _ => 0) 0 0).isSome :=
  verify_group_accesses_in_bounds 1 (fun _ _ => 0) 0
    (by intro i hi j hj; exact Nat.one_pos) (by decide) 0 (by decide)
    0 (by decide) 0 (by decide)

/-- C4: the proposition `R[i][i]` is asserted for every index `i < 2^n` in
both revisions of the preorder family: directly by the reflexivity loop of
`add_preorder_axioms`, and (via the subset pair `(i, i)` of the monotonicity
encoder) in the proposition set the `FrameFinder` revision's run emits. -/
theorem reflexivity_in_emitted_sets (n i : Nat) (hi : i < 1 <<< n) :
    PProp.atom i i ∈ PreorderFinder.add_preorder_asserts (1 <<< n) ∧
    PProp.atom i i ∈ FrameFinder.frame_constraints (1 <<< n) := by
  constructor
  · unfold PreorderFinder.add_preorder_asserts
    exact List.mem_append_left _
      (List.mem_map.mpr ⟨i, List.mem_range.mpr hi, rfl⟩)
  · have hm := mem_encode_monotonicity (1 <<< n) i i hi hi (is_subset_self i)
    unfold FrameFinder.frame_constraints
    simp [List.mem_append, hm]

/-- Witness for C4 at `n = 0`, `i = 0`. -/
theorem reflexivity_in_emitted_sets_witness :
    PProp.atom 0 0 ∈ PreorderFinder.add_preorder_asserts (1 <<< 0) ∧
    PProp.atom 0 0 ∈ FrameFinder.frame_constraints (1 <<< 0) :=
  reflexivity_in_emitted_sets 0 0 (by decide)

/-- C5: at universe size 0 (powerset of one subset, full set = empty set =
index 0) the monotonicity constraints together with the strict
non-triviality constraint `!R[full][empty]` are unsatisfiable: no boolean
matrix satisfies both `R[0][0]` and `!R[0][0]`, so the solver can only
report UNSAT. -/
theorem universe_zero_strict_constraints_unsat (M : Nat → Nat → Bool) :
    satisfiesAll (FrameFinder.encode_monotonicity (1 <<< 0) ++
      FrameFinder.encode_non_triviality (1 <<< 0)) M = false := by
  have h1 : FrameFinder.encode_monotonicity (1 <<< 0) = [PProp.atom 0 0] := by
    decide
  have h2 : FrameFinder.encode_non_triviality (1 <<< 0) =
      [PProp.natom 0 0] := rfl
  rw [h1, h2]
  simp only [satisfiesAll, List.cons_append, List.nil_append, List.all_cons,
    List.all_nil, PProp.holds, Bool.and_true]
  cases h : M 0 0 <;> simp [h]

/-- C6: every concrete matrix satisfying the emitted monotonicity
constraints has `R[i][j]` true for every in-range bitmask pair with
`is_subset(i, j)`, and consequently the independent re-check
`verify_monotonicity` passes on it. -/
theorem monotonicity_model_recheck (n : Nat) (M : Nat → Nat → Bool)
    (h : satisfiesAll (FrameFinder.encode_monotonicity (1 <<< n)) M = true) :
    (∀ i < 1 <<< n, ∀ j < 1 <<< n,
      BitOps.is_subset i j = true → M i j = true) ∧
    FrameFinder.monotonicity_ok (1 <<< n) M = true := by
  have hsub := mono_model_subset (1 <<< n) M h
  refine ⟨hsub, ?_⟩
  unfold FrameFinder.monotonicity_ok
  simp only [List.all_eq_true, List.mem_range]
  intro i hi j hj
  cases hs : BitOps.is_subset i j with
  | false => simp [hs]
  | true => simp [hs, hsub i hi j hj hs]

/-- Witness for C6 at `n = 0` and the all-true matrix. -/
theorem monotonicity_model_recheck_witness :
    (∀ i < 1 <<< 0, ∀ j < 1 <<< 0, BitOps.is_subset i j = true →
      (fun (_ _ : Nat) => true) i j = true) ∧
    FrameFinder.monotonicity_ok (1 <<< 0) (fun _ _ => true) = true :=
  monotonicity_model_recheck 0 (fun _ _ => true) (by decide)

/-- C7: `is_subset(i, i)` is true for every `i`, so `encode_monotonicity`
emits `R[i][i]` for every index; hence every matrix satisfying the
`FrameFinder` revision's emitted constraint set (which has no dedicated
reflexivity axiom) is reflexive, and the fatal reflexivity assertion of
`verify_preorder` cannot fire on such a model. -/
theorem frame_model_reflexive (n : Nat) (M : Nat → Nat → Bool)
    (h : satisfiesAll (FrameFinder.frame_constraints (1 <<< n)) M = true) :
    (∀ i : Nat, BitOps.is_subset i i = true) ∧
    (∀ i < 1 <<< n,
      PProp.atom i i ∈ FrameFinder.encode_monotonicity (1 <<< n)) ∧
    FrameFinder.reflexive_ok (1 <<< n) M = true := by
  refine ⟨is_subset_self,
    fun i hi => mem_encode_monotonicity _ i i hi hi (is_subset_self i), ?_⟩
  have hM : ∀ i < 1 <<< n, M i i = true := by
    intro i hi
    have hm := mem_encode_monotonicity (1 <<< n) i i hi hi (is_subset_self i)
    have hmem : PProp.atom i i ∈ FrameFinder.frame_constraints (1 <<< n) := by
      unfold FrameFinder.frame_constraints
      simp [List.mem_append, hm]
    have := List.all_eq_true.mp h _ hmem
    simpa [PProp.holds] using this
  unfold FrameFinder.reflexive_ok
  simp only [List.all_eq_true, List.mem_range]
  exact hM

/-- Witness for C7 at `n = 1` and the subset-relation matrix. -/
theorem frame_model_reflexive_witness :
    (∀ i : Nat, BitOps.is_subset i i = true) ∧
    (∀ i < 1 <<< 1,
      PProp.atom i i ∈ FrameFinder.encode_monotonicity (1 <<< 1)) ∧
    FrameFinder.reflexive_ok (1 <<< 1)
      (fun i j => BitOps.is_subset i j) = true :=
  frame_model_reflexive 1 (fun i j => BitOps.is_subset i j) (by decide)
